import Mathlib

/-!
Shallow embedding of the dabseq_v2 demultiplexing pipeline.

Sequences, barcodes and file lines are `List Char` (the payload of
`std::string`).  The sources embedded here are `barcode_index.cpp`
(`BarcodeIndex`), `dabseq_utilities.cpp` (`find_with_mismatches`,
`extract_ab_payload_from_r2`, `parse_barcodes_from_r1`,
`parse_antibody_from_r2`), `fastq_reader.cpp` (`FastqPairReader`) and the
counting loop of `main.cpp`.
-/

/-- A barcode, sequence or line of text: the payload of a `std::string`. -/
abbrev Barcode := List Char

/-- The alphabet used to generate single-substitution variants
(`BASES` in `BarcodeIndex::add_hamming_neighbors`). -/
def BASES : List Char := ['A', 'C', 'G', 'T', 'N']

/-- The noisy-to-canonical hamming dictionary
(`std::unordered_map<std::string, std::string> _noisy_to_canonical_`),
modelled as the association list of insertions in insertion order.
`mapFind` returns the earliest binding of a key, which is exactly the
observable behaviour of `std::unordered_map::insert` (an insert whose key is
already present does not overwrite the stored value). -/
abbrev NoisyMap := List (Barcode × Barcode)

/-- `std::unordered_map::find`: the value of the earliest insertion whose key
matches, `none` when the key was never inserted. -/
def mapFind : NoisyMap → Barcode → Option Barcode
  | [], _ => none
  | (k, v) :: rest, q => if k = q then some v else mapFind rest q

/-- `std::unordered_map::insert`: record the binding; an already present key
keeps its earlier value since `mapFind` scans in insertion order. -/
def mapInsert (m : NoisyMap) (k v : Barcode) : NoisyMap := m ++ [(k, v)]

/-- `BarcodeIndex::add_hamming_neighbors` at `hamming_dist = 1` (the only
value the source accepts; any other throws).  Inserts the identity binding
`bc -> bc`, then for every position `i` of `bc` and every base of `BASES`
other than the character at `i`, inserts the single-substitution variant
bound to the canonical barcode `bc`. -/
def add_hamming_neighbors (m : NoisyMap) (bc : Barcode) : NoisyMap :=
  (List.range bc.length).foldl
    (fun acc i =>
      (BASES.filter fun base => base != bc.getD i ' ').foldl
        (fun acc2 base => mapInsert acc2 (bc.set i base) bc) acc)
    (mapInsert m bc bc)

/-- The `BarcodeIndex` object: the canonical whitelist set
(`_canonical_barcodes_`, kept in file order) and the hamming dictionary. -/
structure BarcodeIndex where
  canonical : List Barcode
  noisyToCanonical : NoisyMap
deriving DecidableEq

/-- `BarcodeIndex::BarcodeIndex`: the CSV I/O reduced to its effect, the
ordered list of barcode-column values; for each whitelist barcode in file
order the constructor inserts it into the canonical set and calls
`add_hamming_neighbors` with distance 1. -/
def buildIndex (whitelist : List Barcode) : BarcodeIndex where
  canonical := whitelist
  noisyToCanonical := whitelist.foldl add_hamming_neighbors []

/-- `BarcodeIndex::find_canonical_barcode`: hamming-dictionary lookup; the
by-reference out parameter `canonical` becomes the `Option` payload. -/
def find_canonical_barcode (idx : BarcodeIndex) (observed : Barcode) : Option Barcode :=
  mapFind idx.noisyToCanonical observed

/-- Hamming distance of two equal-length sequences: the number of positions
where they differ (used to state the whitelist distance guarantee). -/
def hamming_dist (x y : List Char) : Nat :=
  ((x.zip y).filter fun p => p.1 != p.2).length

/-- Position-wise mismatch count of `motif` against the window of `seq`
starting at offset `start`: the inner loop of `find_with_mismatches`.  The
source's early `break` once `mismatches > max_mismatches` never changes the
outcome of the final `mismatches <= max_mismatches` test, so the full count
is the faithful observable value. -/
def mismatchCount (seq motif : List Char) (start : Nat) : Nat :=
  ((List.range motif.length).filter
    fun i => seq.getD (start + i) ' ' != motif.getD i ' ').length

/-- `find_with_mismatches`: `std::string::npos` becomes `none`.  The source
scans start offsets `0 .. seq.size() - motif.size()` left to right and
returns the first offset whose mismatch count is within tolerance, which is
`List.find?` over that range.  The source's `max_mismatches` is an `int`;
every call site passes 1 and mismatch counts are non-negative, so it is a
`Nat` here. -/
def find_with_mismatches (seq motif : List Char) (max_mismatches : Nat) : Option Nat :=
  if motif.length = 0 ∨ seq.length < motif.length then none
  else (List.range (seq.length - motif.length + 1)).find?
    fun start => decide (mismatchCount seq motif start ≤ max_mismatches)

/-- `R1_START_MOTIF` of `dabseq_utilities.h`. -/
def R1_START_MOTIF : List Char := "GTACTCGCAGTAGTC".toList

/-- `H5_AB_HANDLE` of `dabseq_utilities.h`. -/
def H5_AB_HANDLE : List Char := "TGACTACGCTACTCATGG".toList

/-- `H3A_AB_HANDLE` of `dabseq_utilities.h`. -/
def H3A_AB_HANDLE : List Char := "GCTTTAAGGCCGGTCCTAGC".toList

/-- `H3B_AB_HANDLE` of `dabseq_utilities.h`. -/
def H3B_AB_HANDLE : List Char := "GAGCCGATCTAGTATCTCAGTCG".toList

/-- `AntibodyPayloadResult` of `dabseq_utilities.h`. -/
structure AntibodyPayloadResult where
  payload : List Char
  valid : Bool
deriving DecidableEq

/-- The fall-through second pattern of `extract_ab_payload_from_r2`: locate
`H3A_AB_HANDLE` with tolerance 1 and take everything before it; when it is
not found the default-initialised invalid result is returned. -/
def ab_payload_pattern2 (seq : List Char) : AntibodyPayloadResult :=
  match find_with_mismatches seq H3A_AB_HANDLE 1 with
  | some pos3a => ⟨seq.take pos3a, true⟩
  | none => ⟨[], false⟩

/-- `extract_ab_payload_from_r2`: locate `H5_AB_HANDLE` and `H3B_AB_HANDLE`
with tolerance 1 each; when both are found and `payload_end > payload_start`
(with `payload_start = pos5 + H5_AB_HANDLE.size()` and
`payload_end = pos3b`), the payload is `seq.substr(payload_start,
payload_end - payload_start)` (`drop` then `take`); otherwise fall through
to the second pattern. -/
def extract_ab_payload_from_r2 (seq : List Char) : AntibodyPayloadResult :=
  match find_with_mismatches seq H5_AB_HANDLE 1,
        find_with_mismatches seq H3B_AB_HANDLE 1 with
  | some pos5, some pos3b =>
    if pos5 + H5_AB_HANDLE.length < pos3b then
      ⟨(seq.drop (pos5 + H5_AB_HANDLE.length)).take (pos3b - (pos5 + H5_AB_HANDLE.length)), true⟩
    else ab_payload_pattern2 seq
  | _, _ => ab_payload_pattern2 seq

/-- `FastqPairReader::Record` of `fastq_reader.h`. -/
structure Record where
  header : List Char
  sequence : List Char
  quality : List Char
  plus : List Char
deriving DecidableEq

/-- `ParsedBarcode` of `dabseq_utilities.h`. -/
structure ParsedBarcode where
  bc1 : List Char
  bc2 : List Char
  valid : Bool
deriving DecidableEq

/-- `ParsedAntibody` of `dabseq_utilities.h`. -/
structure ParsedAntibody where
  barcode : List Char
  valid : Bool
deriving DecidableEq

/-- `parse_barcodes_from_r1`: locate `R1_START_MOTIF` with tolerance 1;
require the motif to be found at offset at least 9; the observed halves are
`seq.substr(0, 9)` and `seq.substr(motif_pos - 9, 9)`; both must resolve
through the index or the default-initialised invalid result is returned. -/
def parse_barcodes_from_r1 (r1 : Record) (barcodes : BarcodeIndex) : ParsedBarcode :=
  let seq := r1.sequence
  match find_with_mismatches seq R1_START_MOTIF 1 with
  | none => ⟨[], [], false⟩
  | some motif_pos =>
    if motif_pos < 9 then ⟨[], [], false⟩
    else
      match find_canonical_barcode barcodes (seq.take 9),
            find_canonical_barcode barcodes ((seq.drop (motif_pos - 9)).take 9) with
      | some c1, some c2 => ⟨c1, c2, true⟩
      | _, _ => ⟨[], [], false⟩

/-- `parse_antibody_from_r2`: extract the payload from the mate-2 sequence;
an invalid extraction or a payload whose length is not exactly 15 yields the
invalid result; otherwise the payload must resolve through the antibody
index. -/
def parse_antibody_from_r2 (r2 : Record) (antibody_barcodes : BarcodeIndex) : ParsedAntibody :=
  let pay := extract_ab_payload_from_r2 r2.sequence
  if pay.valid = false ∨ pay.payload.length ≠ 15 then ⟨[], false⟩
  else
    match find_canonical_barcode antibody_barcodes pay.payload with
    | some c => ⟨c, true⟩
    | none => ⟨[], false⟩

/-- `FastqPairReader::ReadStatus` of `fastq_reader.h`. -/
inductive ReadStatus where
  | ok
  | endOfFile
  | readError
deriving DecidableEq

/-- Outcome of `FastqPairReader::read_single_record`: on success the parsed
record together with the lines remaining in the stream. -/
inductive SingleResult where
  | ok (rec : Record) (rest : List (List Char))
  | endOfFile
  | readError
deriving DecidableEq

/-- `FastqPairReader::read_single_record`.  A stream is its list of remaining
lines; `hts_getline` on an exhausted stream (return value -1) is the empty
list.  The source's header test `line.l == 0 || line.s[0] != '@'` is
`head? ≠ some '@'`, and likewise for the separator marker `'+'`; an
end-of-file at any line after the header is a `readError` (truncated block),
and the sequence and quality lines must have equal lengths.  Low-level
stream errors (`hts_getline <= -2`) are outside the model: a stream is the
list of lines it successfully delivers. -/
def read_single_record : List (List Char) → SingleResult
  | [] => SingleResult.endOfFile
  | header :: rest1 =>
    if header.head? ≠ some '@' then SingleResult.readError
    else
      match rest1 with
      | [] => SingleResult.readError
      | seq :: rest2 =>
        match rest2 with
        | [] => SingleResult.readError
        | plus :: rest3 =>
          if plus.head? ≠ some '+' then SingleResult.readError
          else
            match rest3 with
            | [] => SingleResult.readError
            | qual :: rest4 =>
              if seq.length ≠ qual.length then SingleResult.readError
              else SingleResult.ok ⟨header, seq, qual, plus⟩ rest4

/-- `FastqPairReader::core_header`: the prefix of the header before the first
space (the whole header when it has no space). -/
def core_header (header : List Char) : List Char :=
  header.takeWhile fun c => c != ' '

/-- `FastqPairReader::next_record` on the two streams of remaining lines:
read one block from mate 1 (its end-of-file and error returns propagate),
then one block from mate 2 (anything but success is a `readError`), then
compare the core headers. -/
def next_record (s1 s2 : List (List Char)) : ReadStatus × Option (Record × Record) :=
  match read_single_record s1 with
  | SingleResult.endOfFile => (ReadStatus.endOfFile, none)
  | SingleResult.readError => (ReadStatus.readError, none)
  | SingleResult.ok r1 _ =>
    match read_single_record s2 with
    | SingleResult.ok r2 _ =>
      if core_header r1.header ≠ core_header r2.header then (ReadStatus.readError, none)
      else (ReadStatus.ok, some (r1, r2))
    | _ => (ReadStatus.readError, none)

/-- Per-antibody counts of one cell: the inner
`std::unordered_map<std::string, std::size_t>` of `main.cpp`. -/
abbrev AbCounts := List (List Char × Nat)

/-- The count table of `main.cpp`: cell id to per-antibody counts. -/
abbrev CountTable := List (List Char × AbCounts)

/-- `counts[cell_id][antibody] += 1`, inner map: `operator[]` inserts a
value-initialised count (0) for an absent key, then the count is bumped. -/
def bumpAb : AbCounts → List Char → AbCounts
  | [], ab => [(ab, 1)]
  | (k, n) :: rest, ab =>
    if k = ab then (k, n + 1) :: rest else (k, n) :: bumpAb rest ab

/-- `counts[cell_id][antibody] += 1`, outer map. -/
def bumpCount : CountTable → List Char → List Char → CountTable
  | [], cellId, ab => [(cellId, [(ab, 1)])]
  | (k, inner) :: rest, cellId, ab =>
    if k = cellId then (k, bumpAb inner ab) :: rest
    else (k, inner) :: bumpCount rest cellId ab

/-- The per-pair body of the processing loop of `main.cpp`: parse the cell
barcode from mate 1 and the antibody barcode from mate 2, and when both are
valid increment `counts[bc1 + "_" + bc2][antibody_barcode]`. -/
def processPair (cellIdx abIdx : BarcodeIndex) (counts : CountTable)
    (pr : Record × Record) : CountTable :=
  let cell := parse_barcodes_from_r1 pr.1 cellIdx
  let ab := parse_antibody_from_r2 pr.2 abIdx
  if cell.valid && ab.valid then
    bumpCount counts (cell.bc1 ++ '_' :: cell.bc2) ab.barcode
  else counts

/-- The processing loop of `main.cpp` over the pairs the reader delivered,
starting from the empty count table. -/
def processPairs (cellIdx abIdx : BarcodeIndex) (pairs : List (Record × Record)) : CountTable :=
  pairs.foldl (processPair cellIdx abIdx) []

/-- Sum of all counts stored in the count table. -/
def tableTotal (t : CountTable) : Nat :=
  (t.map fun e => (e.2.map Prod.snd).sum).sum

/-- The bindings `add_hamming_neighbors` inserts for one canonical barcode,
in insertion order: the identity binding first, then each single-substitution
variant bound to the canonical barcode. -/
def entriesOf (bc : Barcode) : NoisyMap :=
  (bc, bc) :: (List.range bc.length).flatMap fun i =>
    (BASES.filter fun base => base != bc.getD i ' ').map fun base => (bc.set i base, bc)

/-- Whitelist barcode `bc` inserts a binding for key `n` during
`add_hamming_neighbors`: `n` is `bc` itself or one of its generated
single-substitution variants. -/
def bindsKey (bc n : Barcode) : Prop := n ∈ (entriesOf bc).map Prod.fst

instance (bc n : Barcode) : Decidable (bindsKey bc n) :=
  inferInstanceAs (Decidable (n ∈ (entriesOf bc).map Prod.fst))

/-- A left fold whose step appends a block per element is the start value
followed by the concatenation of the blocks. -/
lemma foldl_extend {α β : Type} (F : List β → α → List β) (G : α → List β)
    (hF : ∀ acc x, F acc x = acc ++ G x) :
    ∀ (xs : List α) (m : List β), xs.foldl F m = m ++ xs.flatMap G := by
  intro xs
  induction xs with
  | nil => intro m; simp
  | cons x xs ih =>
    intro m
    simp only [List.foldl_cons, List.flatMap_cons, hF, ih, List.append_assoc]

/-- A fold of single insertions appends the corresponding bindings. -/
lemma foldl_mapInsert {α : Type} (h : α → Barcode) (v : Barcode)
    (xs : List α) (m : NoisyMap) :
    xs.foldl (fun acc x => mapInsert acc (h x) v) m = m ++ xs.map fun x => (h x, v) := by
  induction xs generalizing m with
  | nil => simp
  | cons x xs ih =>
    rw [List.foldl_cons, ih]
    simp [mapInsert]

/-- `add_hamming_neighbors` appends exactly the bindings `entriesOf bc`. -/
lemma add_hamming_neighbors_eq (m : NoisyMap) (bc : Barcode) :
    add_hamming_neighbors m bc = m ++ entriesOf bc := by
  unfold add_hamming_neighbors entriesOf
  rw [foldl_extend _
      (fun i => (BASES.filter fun base => base != bc.getD i ' ').map
        fun base => (bc.set i base, bc))
      (fun acc i => foldl_mapInsert _ _ _ _)]
  simp [mapInsert]

/-- The hamming dictionary of a built index is the concatenation, in
whitelist order, of each barcode's bindings. -/
lemma build_noisyToCanonical (w : List Barcode) :
    (buildIndex w).noisyToCanonical = w.flatMap entriesOf := by
  show w.foldl add_hamming_neighbors [] = w.flatMap entriesOf
  rw [foldl_extend add_hamming_neighbors entriesOf add_hamming_neighbors_eq]
  simp

/-- `mapFind` over a concatenation prefers the earlier map. -/
lemma mapFind_append (m1 m2 : NoisyMap) (q : Barcode) :
    mapFind (m1 ++ m2) q = (mapFind m1 q).or (mapFind m2 q) := by
  induction m1 with
  | nil => simp [mapFind]
  | cons e rest ih =>
    obtain ⟨k, v⟩ := e
    by_cases hq : k = q <;> simp [mapFind, hq, ih]

/-- `mapFind` in a map all of whose values are `v` returns `v` exactly on
the stored keys. -/
lemma mapFind_const (v q : Barcode) :
    ∀ (m : NoisyMap), (∀ e ∈ m, e.2 = v) →
      mapFind m q = if q ∈ m.map Prod.fst then some v else none := by
  intro m
  induction m with
  | nil => intro _; simp [mapFind]
  | cons e rest ih =>
    intro hm
    obtain ⟨k, v'⟩ := e
    have hv : v' = v := hm (k, v') (List.mem_cons_self _ _)
    subst hv
    have hrest := ih fun e he => hm e (List.mem_cons_of_mem _ he)
    by_cases hq : k = q
    · simp [mapFind, hq]
    · have hqk : ¬ q = k := fun h => hq h.symm
      simp only [mapFind, if_neg hq, hrest, List.map_cons]
      by_cases hmem : q ∈ List.map Prod.fst rest
      · simp [hmem]
      · simp [hmem, List.mem_cons, hqk]

/-- Every binding of `entriesOf bc` has value `bc`. -/
lemma entriesOf_val (bc : Barcode) : ∀ e ∈ entriesOf bc, e.2 = bc := by
  intro e he
  unfold entriesOf at he
  rcases List.mem_cons.mp he with rfl | hmem
  · rfl
  · obtain ⟨i, _, hmap⟩ := List.mem_flatMap.mp hmem
    obtain ⟨base, _, rfl⟩ := List.mem_map.mp hmap
    rfl

/-- Looking a key up among one barcode's bindings. -/
lemma mapFind_entriesOf (bc q : Barcode) :
    mapFind (entriesOf bc) q = if bindsKey bc q then some bc else none :=
  mapFind_const bc q (entriesOf bc) (entriesOf_val bc)

/-- Peeling the first whitelist barcode off a built index's lookup. -/
lemma find_build_cons (b : Barcode) (w : List Barcode) (q : Barcode) :
    find_canonical_barcode (buildIndex (b :: w)) q =
      if bindsKey b q then some b else find_canonical_barcode (buildIndex w) q := by
  unfold find_canonical_barcode
  rw [build_noisyToCanonical, build_noisyToCanonical, List.flatMap_cons,
    mapFind_append, mapFind_entriesOf]
  by_cases hbk : bindsKey b q <;> simp [hbk]

/-- Characterisation of the keys one barcode binds. -/
lemma bindsKey_iff (bc n : Barcode) :
    bindsKey bc n ↔ n = bc ∨ ∃ i, i < bc.length ∧ ∃ base, base ∈ BASES ∧
      base ≠ bc.getD i ' ' ∧ n = bc.set i base := by
  unfold bindsKey entriesOf
  simp only [List.map_cons, List.map_flatMap, List.map_map, List.mem_cons,
    List.mem_flatMap, List.mem_range, List.mem_map, List.mem_filter,
    Function.comp, bne_iff_ne, ne_eq]
  constructor
  · rintro (rfl | ⟨i, hi, base, ⟨hbase, hne⟩, rfl⟩)
    · exact Or.inl rfl
    · exact Or.inr ⟨i, hi, base, hbase, hne, rfl⟩
  · rintro (rfl | ⟨i, hi, base, hbase, hne, rfl⟩)
    · exact Or.inl rfl
    · exact Or.inr ⟨i, hi, base, ⟨hbase, hne⟩, rfl⟩

/-- Every barcode binds itself (the identity binding). -/
lemma bindsKey_self (bc : Barcode) : bindsKey bc bc :=
  (bindsKey_iff bc bc).mpr (Or.inl rfl)

/-- A sequence is at hamming distance 0 from itself. -/
lemma hamming_dist_self (l : List Char) : hamming_dist l l = 0 := by
  induction l with
  | nil => rfl
  | cons a t ih => simpa [hamming_dist] using ih

/-- Substituting a different character at one in-range position yields
hamming distance exactly 1. -/
lemma hamming_dist_set (l : List Char) :
    ∀ (i : Nat) (c : Char), i < l.length → c ≠ l.getD i ' ' →
      hamming_dist (l.set i c) l = 1 := by
  induction l with
  | nil => intro i c hi _; simp at hi
  | cons a t ih =>
    intro i c hi hc
    cases i with
    | zero =>
      have hc' : c ≠ a := by simpa using hc
      have h0 : ((t.zip t).filter fun p => p.1 != p.2).length = 0 := hamming_dist_self t
      simp [hamming_dist, List.filter_cons, hc', h0]
    | succ j =>
      have hj : j < t.length := by simpa using hi
      have hc' : c ≠ t.getD j ' ' := by simpa using hc
      have hrec := ih j c hj hc'
      simpa [hamming_dist, List.filter_cons] using hrec

/-- A successful `mapFind` comes from a stored binding. -/
lemma mapFind_some_mem (q v : Barcode) :
    ∀ (m : NoisyMap), mapFind m q = some v → (q, v) ∈ m := by
  intro m
  induction m with
  | nil => intro h; simp [mapFind] at h
  | cons e rest ih =>
    obtain ⟨k, v'⟩ := e
    intro h
    by_cases hq : k = q
    · subst hq
      simp [mapFind] at h
      subst h
      exact List.mem_cons_self _ _
    · simp [mapFind, hq] at h
      exact List.mem_cons_of_mem _ (ih h)

/-- Every key one barcode binds has the barcode's own length. -/
lemma entriesOf_key_length (bc : Barcode) :
    ∀ e ∈ entriesOf bc, (e.1).length = bc.length := by
  intro e he
  unfold entriesOf at he
  rcases List.mem_cons.mp he with rfl | hmem
  · rfl
  · obtain ⟨i, _, hmap⟩ := List.mem_flatMap.mp hmem
    obtain ⟨base, _, rfl⟩ := List.mem_map.mp hmap
    simp

/-- C1 counterexample: the whitelist `["AAA", "AAT"]` violates the pairwise
distance guarantee and both barcodes share the single-substitution noisy
neighbor `"AAC"`, yet lookup of `"AAC"` returns `"AAA"` — the canonical
barcode inserted FIRST, not the one inserted last as the claim states
(`std::unordered_map::insert` never overwrites an existing key). -/
theorem C1_counterexample :
    hamming_dist ['A','A','C'] ['A','A','A'] = 1 ∧
    hamming_dist ['A','A','C'] ['A','A','T'] = 1 ∧
    find_canonical_barcode (buildIndex [['A','A','A'], ['A','A','T']]) ['A','A','C']
      = some ['A','A','A'] ∧
    find_canonical_barcode (buildIndex [['A','A','A'], ['A','A','T']]) ['A','A','C']
      ≠ some ['A','A','T'] := by
  decide

/-- C1 (amended): when the pairwise-distance guarantee is violated and two
canonical barcodes share a single-substitution noisy neighbor, lookup of
that neighbor returns whichever canonical barcode was inserted FIRST for it
(the earlier of the two in whitelist construction order, here assuming no
still-earlier whitelist entry also binds that neighbor). -/
theorem C1_amended (w1 w2 w3 : List Barcode) (b1 b2 n : Barcode)
    (_hn1 : n ≠ b1) (_hn2 : n ≠ b2) (h1 : bindsKey b1 n) (_h2 : bindsKey b2 n)
    (hw1 : ∀ b ∈ w1, ¬ bindsKey b n) :
    find_canonical_barcode (buildIndex (w1 ++ (b1 :: (w2 ++ (b2 :: w3))))) n = some b1 := by
  induction w1 with
  | nil =>
    rw [List.nil_append, find_build_cons, if_pos h1]
  | cons b w1 ih =>
    rw [List.cons_append, find_build_cons, if_neg (hw1 b (List.mem_cons_self b w1))]
    exact ih fun b' hb' => hw1 b' (List.mem_cons_of_mem _ hb')

/-- C1 witness: the amended statement applied to the counterexample
whitelist `["AAA", "AAT"]` with shared neighbor `"AAC"`. -/
theorem C1_witness :
    find_canonical_barcode (buildIndex [['A','A','A'], ['A','A','T']]) ['A','A','C']
      = some ['A','A','A'] :=
  C1_amended [] [] [] ['A','A','A'] ['A','A','T'] ['A','A','C']
    (by decide) (by decide) (by decide) (by decide) (by decide)

/-- C2 counterexample: the whitelist `["AA", "AC"]` (pairwise hamming
distance 1, violating the distance guarantee) contains the canonical
barcode `"AC"`, yet lookup of `"AC"` does not return `"AC"`: the earlier
barcode `"AA"` already bound the key `"AC"` as one of its noisy neighbors
and `std::unordered_map::insert` never overwrites. -/
theorem C2_counterexample :
    (['A','C'] : Barcode) ∈ [['A','A'], ['A','C']] ∧
    find_canonical_barcode (buildIndex [['A','A'], ['A','C']]) ['A','C']
      = some ['A','A'] ∧
    find_canonical_barcode (buildIndex [['A','A'], ['A','C']]) ['A','C']
      ≠ some ['A','C'] := by
  decide

/-- C2 (amended): for every whitelist in which distinct equal-length
barcodes are pairwise at hamming distance at least 2 (in particular any
whitelist satisfying the spec's minimum-distance guarantee), every
canonical barcode looks up to itself in the built index. -/
theorem C2_amended (w : List Barcode) (b : Barcode) (hb : b ∈ w)
    (hsep : ∀ b1 ∈ w, ∀ b2 ∈ w, b1 ≠ b2 → b1.length = b2.length →
      2 ≤ hamming_dist b1 b2) :
    find_canonical_barcode (buildIndex w) b = some b := by
  induction w with
  | nil => cases hb
  | cons b0 rest ih =>
    rw [find_build_cons]
    by_cases hbk : bindsKey b0 b
    · rcases (bindsKey_iff b0 b).mp hbk with heq | ⟨i, hi, base, _, hne, hset⟩
      · rw [if_pos hbk, heq]
      · exfalso
        have hlen : b.length = b0.length := by rw [hset]; simp
        have hham : hamming_dist b b0 = 1 := by
          rw [hset]; exact hamming_dist_set b0 i base hi hne
        have hne0 : b ≠ b0 := by
          intro h
          rw [h, hamming_dist_self b0] at hham
          exact absurd hham (by simp)
        have h2 := hsep b hb b0 (List.mem_cons_self b0 rest) hne0 hlen
        rw [hham] at h2
        omega
    · rw [if_neg hbk]
      have hb' : b ∈ rest := by
        rcases List.mem_cons.mp hb with rfl | h
        · exact absurd (bindsKey_self b) hbk
        · exact h
      exact ih hb' fun b1 h1 b2 h2 =>
        hsep b1 (List.mem_cons_of_mem _ h1) b2 (List.mem_cons_of_mem _ h2)

/-- C2 witness: the amended statement applied to the one-element whitelist
`["AC"]`, whose separation hypothesis holds vacuously. -/
theorem C2_witness :
    find_canonical_barcode (buildIndex [['A','C']]) ['A','C'] = some ['A','C'] :=
  C2_amended [['A','C']] ['A','C'] (by decide) (by decide)

/-- C10: a successful lookup returns a member of the canonical whitelist
whose length equals the observed string's length; consequently lookup
cannot succeed when every whitelist barcode's length differs from the
observed string's. -/
theorem C10_lookup_invariant (w : List Barcode) (obs c : Barcode)
    (h : find_canonical_barcode (buildIndex w) obs = some c) :
    c ∈ (buildIndex w).canonical ∧ c.length = obs.length ∧
      ¬ (∀ b ∈ w, b.length ≠ obs.length) := by
  unfold find_canonical_barcode at h
  rw [build_noisyToCanonical] at h
  have hmem := mapFind_some_mem obs c _ h
  obtain ⟨b, hbw, hbe⟩ := List.mem_flatMap.mp hmem
  have hv : c = b := entriesOf_val b (obs, c) hbe
  subst hv
  have hlen : obs.length = c.length := entriesOf_key_length c (obs, c) hbe
  refine ⟨hbw, hlen.symm, fun hall => hall c hbw hlen.symm⟩

/-- C10 witness: the invariant applied to the whitelist `["A"]` and the
observed barcode `"A"`. -/
theorem C10_witness :
    (['A'] : Barcode) ∈ (buildIndex [['A']]).canonical ∧
      (['A'] : Barcode).length = (['A'] : Barcode).length ∧
      ¬ (∀ b ∈ [(['A'] : Barcode)], b.length ≠ (['A'] : Barcode).length) :=
  C10_lookup_invariant [['A']] ['A'] ['A'] (by decide)

/-- `List.find?` over `range n` fails exactly when no index below `n`
satisfies the predicate. -/
lemma find?_range_eq_none (p : Nat → Bool) (n : Nat) :
    (List.range n).find? p = none ↔ ∀ j < n, ¬ p j := by
  rw [List.find?_eq_none]
  constructor
  · intro h j hj; exact h j (List.mem_range.mpr hj)
  · intro h x hx; exact h x (List.mem_range.mp hx)

/-- `List.find?` over `range n` returns `k` exactly when `k` is the least
index below `n` satisfying the predicate. -/
lemma find?_range_eq_some (p : Nat → Bool) (n : Nat) :
    ∀ k, (List.range n).find? p = some k ↔ k < n ∧ p k ∧ ∀ j < k, ¬ p j := by
  induction n with
  | zero => intro k; simp
  | succ m ih =>
    intro k
    rw [List.range_succ, List.find?_append]
    cases hfind : (List.range m).find? p with
    | some k' =>
      obtain ⟨hk'm, hpk', hmin'⟩ := (ih k').mp hfind
      simp only [Option.or_some, Option.some.injEq]
      constructor
      · rintro rfl
        exact ⟨Nat.lt_succ_of_lt hk'm, hpk', hmin'⟩
      · rintro ⟨hkn, hpk, hmin⟩
        rcases Nat.lt_trichotomy k' k with h | h | h
        · exact absurd hpk' (hmin k' h)
        · exact h
        · exact absurd hpk (hmin' k h)
    | none =>
      have hall := (find?_range_eq_none p m).mp hfind
      rw [Option.none_or, List.find?_singleton]
      by_cases hpm : p m
      · simp only [if_pos hpm, Option.some.injEq]
        constructor
        · rintro rfl
          exact ⟨Nat.lt_succ_self m, hpm, hall⟩
        · rintro ⟨hkn, hpk, hmin⟩
          rcases Nat.lt_trichotomy m k with h | h | h
          · omega
          · exact h
          · exact absurd hpk (hall k h)
      · simp only [if_neg hpm]
        constructor
        · intro h; exact Option.noConfusion h
        · rintro ⟨hkn, hpk, hmin⟩
          rcases Nat.lt_succ_iff_lt_or_eq.mp hkn with h | rfl
          · exact absurd hpk (hall k h)
          · exact absurd hpk hpm

/-- C4: `find_with_mismatches` returns the smallest start offset whose
position-wise mismatch count against the motif is within tolerance, and
returns `none` exactly when the motif is empty, the motif is longer than
the sequence, or no offset qualifies. -/
theorem C4_find_with_mismatches_spec (seq motif : List Char) (max_mismatches : Nat) :
    (∀ k, find_with_mismatches seq motif max_mismatches = some k ↔
      (motif ≠ [] ∧ k + motif.length ≤ seq.length ∧
       mismatchCount seq motif k ≤ max_mismatches ∧
       ∀ j < k, max_mismatches < mismatchCount seq motif j)) ∧
    (find_with_mismatches seq motif max_mismatches = none ↔
      (motif = [] ∨ seq.length < motif.length ∨
       ∀ k, k + motif.length ≤ seq.length →
         max_mismatches < mismatchCount seq motif k)) := by
  unfold find_with_mismatches
  by_cases hdeg : motif.length = 0 ∨ seq.length < motif.length
  · rw [if_pos hdeg]
    constructor
    · intro k
      constructor
      · intro h; exact Option.noConfusion h
      · rintro ⟨hne2, hfit2, -, -⟩
        exfalso
        rcases hdeg with h0 | hlong
        · exact hne2 (List.length_eq_zero.mp h0)
        · omega
    · refine iff_of_true rfl ?_
      rcases hdeg with h0 | hlong
      · exact Or.inl (List.length_eq_zero.mp h0)
      · exact Or.inr (Or.inl hlong)
  · have hdeg' := hdeg
    rw [if_neg hdeg]
    push_neg at hdeg'
    obtain ⟨h0, hfit⟩ := hdeg'
    have hne : motif ≠ [] := fun h => h0 (by simp [h])
    constructor
    · intro k
      rw [find?_range_eq_some]
      constructor
      · rintro ⟨hkn, hpk, hmin⟩
        refine ⟨hne, by omega, by simpa using hpk, fun j hj => ?_⟩
        have h2 : ¬ (mismatchCount seq motif j ≤ max_mismatches) := by
          simpa using hmin j hj
        omega
      · rintro ⟨-, hkfit, hpk, hmin⟩
        refine ⟨by omega, by simpa using hpk, fun j hj => ?_⟩
        simp only [decide_eq_true_eq, Nat.not_le]
        exact hmin j hj
    · rw [find?_range_eq_none]
      constructor
      · intro h
        refine Or.inr (Or.inr fun k hk => ?_)
        have h2 : ¬ (mismatchCount seq motif k ≤ max_mismatches) := by
          simpa using h k (by omega)
        omega
      · rintro (h | h | h) j hj
        · exact absurd h hne
        · omega
        · simp only [decide_eq_true_eq, Nat.not_le]
          exact h j (by omega)

/-- C5: antibody payload extraction tries pattern 1 first — when the 5'
handle and the 3' variant-B handle are both located (tolerance 1 each) and
the 3' landmark starts strictly after the position immediately past the 5'
handle, the payload is the substring strictly between them; otherwise
pattern 2 applies — when the 3' variant-A handle is located (tolerance 1)
the payload is everything preceding it; when neither pattern yields a
payload the extraction is invalid. -/
theorem C5_extract_ab_payload_spec (seq : List Char) :
    (∀ pos5 pos3b, find_with_mismatches seq H5_AB_HANDLE 1 = some pos5 →
      find_with_mismatches seq H3B_AB_HANDLE 1 = some pos3b →
      pos5 + H5_AB_HANDLE.length < pos3b →
      extract_ab_payload_from_r2 seq =
        ⟨(seq.drop (pos5 + H5_AB_HANDLE.length)).take
            (pos3b - (pos5 + H5_AB_HANDLE.length)), true⟩) ∧
    ((¬ ∃ pos5 pos3b, find_with_mismatches seq H5_AB_HANDLE 1 = some pos5 ∧
        find_with_mismatches seq H3B_AB_HANDLE 1 = some pos3b ∧
        pos5 + H5_AB_HANDLE.length < pos3b) →
      (∀ pos3a, find_with_mismatches seq H3A_AB_HANDLE 1 = some pos3a →
        extract_ab_payload_from_r2 seq = ⟨seq.take pos3a, true⟩) ∧
      (find_with_mismatches seq H3A_AB_HANDLE 1 = none →
        extract_ab_payload_from_r2 seq = ⟨[], false⟩)) := by
  constructor
  · intro pos5 pos3b h5 h3b hlt
    unfold extract_ab_payload_from_r2
    rw [h5, h3b]
    simp only [if_pos hlt]
  · intro hno
    have hp2 : extract_ab_payload_from_r2 seq = ab_payload_pattern2 seq := by
      unfold extract_ab_payload_from_r2
      cases h5 : find_with_mismatches seq H5_AB_HANDLE 1 with
      | none => rfl
      | some p5 =>
        cases h3b : find_with_mismatches seq H3B_AB_HANDLE 1 with
        | none => rfl
        | some p3b =>
          have hlt : ¬ (p5 + H5_AB_HANDLE.length < p3b) :=
            fun hlt => hno ⟨p5, p3b, h5, h3b, hlt⟩
          simp only [if_neg hlt]
    constructor
    · intro pos3a h3a
      rw [hp2]
      unfold ab_payload_pattern2
      rw [h3a]
    · intro h3a
      rw [hp2]
      unfold ab_payload_pattern2
      rw [h3a]

/-- C6: cell-barcode extraction locates the start motif with tolerance 1
and is invalid unless it starts at offset at least 9; the halves are the
first 9 bases and the 9 bases immediately preceding the motif; both must
resolve through the correction index, and on success the corrected halves
are produced. -/
lemma parse_barcodes_eq (r1 : Record) (idx : BarcodeIndex) :
    parse_barcodes_from_r1 r1 idx =
      match find_with_mismatches r1.sequence R1_START_MOTIF 1 with
      | none => ⟨[], [], false⟩
      | some motif_pos =>
        if motif_pos < 9 then ⟨[], [], false⟩
        else
          match find_canonical_barcode idx (r1.sequence.take 9),
                find_canonical_barcode idx
                  ((r1.sequence.drop (motif_pos - 9)).take 9) with
          | some c1, some c2 => ⟨c1, c2, true⟩
          | _, _ => ⟨[], [], false⟩ := rfl

theorem C6_parse_barcodes_spec (r1 : Record) (idx : BarcodeIndex) :
    (find_with_mismatches r1.sequence R1_START_MOTIF 1 = none →
      (parse_barcodes_from_r1 r1 idx).valid = false) ∧
    (∀ pos, find_with_mismatches r1.sequence R1_START_MOTIF 1 = some pos →
      ((pos < 9 → (parse_barcodes_from_r1 r1 idx).valid = false) ∧
       (9 ≤ pos →
         (∀ c1 c2,
            find_canonical_barcode idx (r1.sequence.take 9) = some c1 →
            find_canonical_barcode idx ((r1.sequence.drop (pos - 9)).take 9) = some c2 →
            parse_barcodes_from_r1 r1 idx = ⟨c1, c2, true⟩) ∧
         ((find_canonical_barcode idx (r1.sequence.take 9) = none ∨
           find_canonical_barcode idx ((r1.sequence.drop (pos - 9)).take 9) = none) →
           (parse_barcodes_from_r1 r1 idx).valid = false)))) := by
  constructor
  · intro h
    rw [parse_barcodes_eq, h]
  · intro pos hpos
    have hlt9 : ∀ hlt : pos < 9, (parse_barcodes_from_r1 r1 idx).valid = false := by
      intro hlt
      rw [parse_barcodes_eq, hpos]
      simp only [if_pos hlt]
    refine ⟨hlt9, fun hge => ⟨fun c1 c2 h1 h2 => ?_, fun hnone => ?_⟩⟩
    · rw [parse_barcodes_eq, hpos]
      simp only [if_neg (by omega : ¬ pos < 9)]
      rw [h1, h2]
    · rw [parse_barcodes_eq, hpos]
      simp only [if_neg (by omega : ¬ pos < 9)]
      rcases hnone with h1 | h2
      · rw [h1]
      · rw [h2]
        cases find_canonical_barcode idx (r1.sequence.take 9) <;> rfl

/-- C7: the antibody result is valid exactly when the extraction succeeded,
the payload has length exactly 15 (so any other length, including 14,
invalidates it regardless of which pattern matched), and the payload
resolves through the antibody correction index. -/
theorem C7_parse_antibody_spec (r2 : Record) (idx : BarcodeIndex) :
    (parse_antibody_from_r2 r2 idx).valid = true ↔
      ((extract_ab_payload_from_r2 r2.sequence).valid = true ∧
       (extract_ab_payload_from_r2 r2.sequence).payload.length = 15 ∧
       ∃ c, find_canonical_barcode idx
              (extract_ab_payload_from_r2 r2.sequence).payload = some c) := by
  unfold parse_antibody_from_r2
  by_cases hv : (extract_ab_payload_from_r2 r2.sequence).valid = false ∨
      (extract_ab_payload_from_r2 r2.sequence).payload.length ≠ 15
  · rw [if_pos hv]
    refine iff_of_false (by simp) ?_
    rintro ⟨h1, h2, -⟩
    rcases hv with hv | hv
    · rw [h1] at hv
      exact Bool.noConfusion hv
    · exact hv h2
  · rw [if_neg hv]
    push_neg at hv
    obtain ⟨hval, hlen⟩ := hv
    have hval' : (extract_ab_payload_from_r2 r2.sequence).valid = true :=
      Bool.not_eq_false _ |>.mp hval
    cases hc : find_canonical_barcode idx
        (extract_ab_payload_from_r2 r2.sequence).payload with
    | some c => exact iff_of_true rfl ⟨hval', hlen, c, rfl⟩
    | none =>
      refine iff_of_false (by simp) ?_
      rintro ⟨-, -, c, hc'⟩
      exact Option.noConfusion hc'

/-- C8: a 4-line block is a `readError` exactly when the header does not
start with `'@'` (or is empty), the separator does not start with `'+'` (or
is empty), or the sequence and quality lengths differ; a stream that ends
after the header but before the quality line (a truncated block) is always
a `readError`. -/
theorem C8_read_single_record_spec (h s p q : List Char) (rest : List (List Char)) :
    (read_single_record (h :: s :: p :: q :: rest) = SingleResult.readError ↔
      (h.head? ≠ some '@' ∨ p.head? ≠ some '+' ∨ s.length ≠ q.length)) ∧
    read_single_record [h] = SingleResult.readError ∧
    read_single_record [h, s] = SingleResult.readError ∧
    read_single_record [h, s, p] = SingleResult.readError := by
  refine ⟨?_, ?_, ?_, ?_⟩
  · unfold read_single_record
    by_cases h1 : h.head? = some '@' <;>
      by_cases h2 : p.head? = some '+' <;>
        by_cases h3 : s.length = q.length <;>
          simp [h1, h2, h3]
  · unfold read_single_record
    by_cases h1 : h.head? = some '@' <;> simp [h1]
  · unfold read_single_record
    by_cases h1 : h.head? = some '@' <;> simp [h1]
  · unfold read_single_record
    by_cases h1 : h.head? = some '@' <;> by_cases h2 : p.head? = some '+' <;>
      simp [h1, h2]

/-- `read_single_record` reports end-of-file exactly on the empty stream. -/
lemma read_single_record_eof_iff (lines : List (List Char)) :
    read_single_record lines = SingleResult.endOfFile ↔ lines = [] := by
  cases lines with
  | nil => simp [read_single_record]
  | cons l t =>
    refine iff_of_false ?_ (by simp)
    unfold read_single_record
    cases t with
    | nil => by_cases h1 : l.head? = some '@' <;> simp [h1]
    | cons s t2 =>
      cases t2 with
      | nil => by_cases h1 : l.head? = some '@' <;> simp [h1]
      | cons p t3 =>
        cases t3 with
        | nil =>
          by_cases h1 : l.head? = some '@' <;> by_cases h2 : p.head? = some '+' <;>
            simp [h1, h2]
        | cons q t4 =>
          by_cases h1 : l.head? = some '@' <;> by_cases h2 : p.head? = some '+' <;>
            by_cases h3 : s.length = q.length <;> simp [h1, h2, h3]

/-- C3 counterexample: mate 1 exhausted while mate 2 still has a complete
block remaining — the claim says this desynchronisation returns the fatal
`ReadError`, but `next_record` returns `EndOfFile` without ever looking at
mate 2's stream. -/
theorem C3_counterexample :
    (next_record [] [['@','h'], ['A'], ['+'], ['I']]).1 = ReadStatus.endOfFile ∧
    (next_record [] [['@','h'], ['A'], ['+'], ['I']]).1 ≠ ReadStatus.readError := by
  decide

/-- C3 (amended): when mate 1 still has lines but mate 2 is exhausted,
`next_record` returns the fatal `readError`; and `endOfFile` is returned
only when mate 1's stream is exhausted cleanly at a block boundary (the
mate-2-longer desynchronisation instead returns `endOfFile`, decided by
mate 1 alone). -/
theorem C3_next_record_amended (s1 s2 : List (List Char)) (h1 : s1 ≠ []) :
    (s2 = [] → (next_record s1 s2).1 = ReadStatus.readError) ∧
    (next_record s1 s2).1 ≠ ReadStatus.endOfFile := by
  have hne : read_single_record s1 ≠ SingleResult.endOfFile := by
    intro h
    exact h1 ((read_single_record_eof_iff s1).mp h)
  unfold next_record
  cases hr1 : read_single_record s1 with
  | endOfFile => exact absurd hr1 hne
  | readError => exact ⟨fun _ => rfl, by simp⟩
  | ok r1 rest =>
    constructor
    · rintro rfl
      rfl
    · cases hr2 : read_single_record s2 with
      | ok r2 rest2 =>
        by_cases hcore : core_header r1.header ≠ core_header r2.header
        · simp [hcore]
        · simp [hcore]
      | endOfFile => simp
      | readError => simp

/-- C3 witness: the amended statement applied to a mate-1 stream holding
one (malformed-in-any-case unfinished) line and an exhausted mate-2
stream. -/
theorem C3_witness :
    (next_record [['@','h']] []).1 = ReadStatus.readError :=
  (C3_next_record_amended [['@','h']] [] (by decide)).1 rfl

/-- Bumping one antibody count raises the inner sum by exactly one. -/
lemma bumpAb_total (inner : AbCounts) (ab : List Char) :
    ((bumpAb inner ab).map Prod.snd).sum = (inner.map Prod.snd).sum + 1 := by
  induction inner with
  | nil => simp [bumpAb]
  | cons e rest ih =>
    obtain ⟨k, n⟩ := e
    by_cases hk : k = ab <;> simp [bumpAb, hk, ih] <;> omega

/-- The table total of a cons is the head cell's sum plus the tail's total. -/
lemma tableTotal_cons (cid : List Char) (inner : AbCounts) (rest : CountTable) :
    tableTotal ((cid, inner) :: rest) = (inner.map Prod.snd).sum + tableTotal rest := by
  simp [tableTotal]

/-- Bumping one cell/antibody count raises the table total by exactly one. -/
lemma bumpCount_total (t : CountTable) (cid ab : List Char) :
    tableTotal (bumpCount t cid ab) = tableTotal t + 1 := by
  induction t with
  | nil => simp [bumpCount, tableTotal]
  | cons e rest ih =>
    obtain ⟨k, inner⟩ := e
    by_cases hk : k = cid
    · rw [show bumpCount ((k, inner) :: rest) cid ab = (k, bumpAb inner ab) :: rest from by
        simp [bumpCount, hk]]
      rw [tableTotal_cons, tableTotal_cons, bumpAb_total]
      omega
    · rw [show bumpCount ((k, inner) :: rest) cid ab = (k, inner) :: bumpCount rest cid ab from by
        simp [bumpCount, hk]]
      rw [tableTotal_cons, tableTotal_cons, ih]
      omega

/-- The loop invariant behind C9, generalised over the starting table. -/
lemma processPairs_total_aux (cellIdx abIdx : BarcodeIndex) :
    ∀ (pairs : List (Record × Record)) (t : CountTable),
      tableTotal (pairs.foldl (processPair cellIdx abIdx) t) =
        tableTotal t + (pairs.filter fun pr =>
          (parse_barcodes_from_r1 pr.1 cellIdx).valid &&
          (parse_antibody_from_r2 pr.2 abIdx).valid).length := by
  intro pairs
  induction pairs with
  | nil => intro t; simp
  | cons pr pairs ih =>
    intro t
    rw [List.foldl_cons, ih]
    by_cases hc : ((parse_barcodes_from_r1 pr.1 cellIdx).valid &&
        (parse_antibody_from_r2 pr.2 abIdx).valid) = true
    · have hstep : processPair cellIdx abIdx t pr =
          bumpCount t ((parse_barcodes_from_r1 pr.1 cellIdx).bc1 ++
            '_' :: (parse_barcodes_from_r1 pr.1 cellIdx).bc2)
            (parse_antibody_from_r2 pr.2 abIdx).barcode := by
        unfold processPair
        rw [if_pos hc]
      rw [hstep, bumpCount_total, List.filter_cons, if_pos hc]
      simp
      omega
    · have hstep : processPair cellIdx abIdx t pr = t := by
        unfold processPair
        rw [if_neg hc]
      rw [hstep, List.filter_cons, if_neg hc]

/-- C9: after processing any list of read pairs, the sum of all counts in
the count table equals the number of pairs for which both the cell-barcode
and the antibody-barcode extraction were valid. -/
theorem C9_count_invariant (cellIdx abIdx : BarcodeIndex) (pairs : List (Record × Record)) :
    tableTotal (processPairs cellIdx abIdx pairs) =
      (pairs.filter fun pr =>
        (parse_barcodes_from_r1 pr.1 cellIdx).valid &&
        (parse_antibody_from_r2 pr.2 abIdx).valid).length := by
  unfold processPairs
  rw [processPairs_total_aux]
  simp [tableTotal]

/-- Scenario check from the source's own doc comment: a mate-1 read whose
start motif is preceded by the noisy halves `TNGACCATG` and `TGAACGGTT`
resolves to the corrected cell barcode pair. -/
example :
    parse_barcodes_from_r1
      ⟨[], "TNGACCATGAGTACGTACGAGTCTGAACGGTTGTACTCGCAGTAGTCCGACTGAG".toList, [], []⟩
      (buildIndex ["TAGACCATG".toList, "TGAACGGTT".toList]) =
    ⟨"TAGACCATG".toList, "TGAACGGTT".toList, true⟩ := by decide

/-- Scenario check: a mate-2 read holding the 5' handle, a 15-base payload
and the 3' variant-B handle yields the corrected antibody barcode. -/
example :
    parse_antibody_from_r2
      ⟨[], H5_AB_HANDLE ++ "CCGTGTTCCTCATTA".toList ++ H3B_AB_HANDLE, [], []⟩
      (buildIndex ["CCGTGTTCCTCATTA".toList]) =
    ⟨"CCGTGTTCCTCATTA".toList, true⟩ := by decide

/-- Scenario check: an off-by-one payload of length 14 between the handles
is extracted but rejected by `parse_antibody_from_r2` regardless of how
well the handles matched. -/
example :
    (extract_ab_payload_from_r2
        (H5_AB_HANDLE ++ "CCGTGTTCCTCATT".toList ++ H3B_AB_HANDLE)).payload.length = 14 ∧
    (parse_antibody_from_r2
        ⟨[], H5_AB_HANDLE ++ "CCGTGTTCCTCATT".toList ++ H3B_AB_HANDLE, [], []⟩
        (buildIndex ["CCGTGTTCCTCATTA".toList])).valid = false := by decide
